import Mathlib

/-!
Shallow embedding of the bedshift perturbation engine
(`src/bedshift/bedshift.py`, class `Bedshift`).

A BED row is a `Region` (columns 0..3 of the dataframe: chromosome, start,
end, modification tag).  The working dataframe `self.bed` is a `List Region`
indexed positionally (every operator ends with `reset_index(drop=True)`, so
pandas row labels always coincide with list positions at operator entry).
`self.chrom_lens` is an association list, `self.original_bed` the pristine
copy kept by `__init__`.

Randomness: the Python code draws from the global `random` / `np.random`
sources.  This is modelled by `Rng`: an oracle stream of integers plus a
counter of values consumed so far.  Each primitive draw
(`random.sample` element selection, `random.choices` element selection,
`random.randint`, `int(np.random.normal(..))`) consumes one stream value;
the stream value is otherwise arbitrary, which soundly over-approximates
every distribution with support on all integers.  `int(np.random.normal)`
can return any integer, so its model is the raw stream value; `randint(1,n)`
and index selection reduce the stream value modulo the range size.

Fatal exits (`sys.exit(1)` after `_LOGGER.error`) and uncaught exceptions
are modelled by `BedErr`.  Every operator returns an `OpResult`: the
optional error, the Python return value, and the object state at the moment
of termination, so that "the working set is never left partially mutated on
error" is a provable statement rather than a notational accident.
-/

namespace Bedshift

/-- One BED row: dataframe columns 0 (chromosome), 1 (start), 2 (end) and
3 (modification tag `'-'`/`'A'`/`'S'`/`'C'`/`'M'`). The Python `end` column
is called `stop` here because `end` is a Lean keyword. -/
structure Region where
  chrom : String
  start : Int
  stop : Int
  tag : Char
deriving DecidableEq, Repr, Inhabited

/-- The shared sequential random source: `ctr` values have been consumed so
far, `stream n` is the value produced by the `n`-th primitive draw. -/
structure Rng where
  ctr : Nat
  stream : Nat → Int

/-- Failure modes: `_precheck` rate exits, `_precheck` missing chrom.sizes
exits, the `ValueError` caught in `shift_from_file` (requested more than the
available overlap), the empty-intersection exception of `_find_overlap`,
pandas `KeyError` on a missing row label, and any other uncaught
`ValueError` (e.g. `random.sample` with an oversized k, `randint(1,0)`). -/
inductive BedErr where
  | invalidRate
  | missingChromLens
  | insufficientOverlap (requested available : Nat)
  | noOverlapFound
  | keyError
  | valueError
deriving DecidableEq, Repr

/-- The mutable state of a `Bedshift` object: `self.bed`,
`self.original_bed`, `self.chrom_lens` and the random source. -/
structure BState where
  bed : List Region
  originalBed : List Region
  chromLens : List (String × Int)
  rng : Rng

/-- Outcome of one operator call: optional fatal error, the Python return
value (0 when the call died), and the object state at termination. -/
structure OpResult where
  err : Option BedErr
  count : Nat
  state : BState

/-- `self.chrom_lens[c]` as a partial lookup. -/
def lookupChrom (lens : List (String × Int)) (c : String) : Option Int :=
  (lens.find? (fun p => p.1 == c)).map (fun p => p.2)

/-- `int(rows * rate)`: rates are modelled as exact rationals; for the
non-negative products produced by the engine, Python `int` truncation is
the floor. -/
def numFromRate (rows : Nat) (rate : ℚ) : Nat :=
  ((rows : ℚ) * rate).floor.toNat

/-- Does a region lie inside its chromosome: the chromosome is in the
length map, `start ≥ 0` and `end` at most the chromosome length. -/
def regionInBounds (lens : List (String × Int)) (r : Region) : Bool :=
  match lookupChrom lens r.chrom with
  | some l => decide (0 ≤ r.start) && decide (r.stop ≤ l)
  | none => false

/-- `df.drop(labels)` + `reset_index(drop=True)` on a positionally labelled
frame: keep the elements whose position is not in `idxs` (duplicate labels
in `idxs` are harmless, as in pandas). `j` is the position of the head of
the remaining list. -/
def removeIdxsAux (idxs : List Nat) : Nat → List α → List α
  | _, [] => []
  | j, x :: xs =>
    if j ∈ idxs then removeIdxsAux idxs (j + 1) xs
    else x :: removeIdxsAux idxs (j + 1) xs

def removeIdxs (l : List α) (idxs : List Nat) : List α :=
  removeIdxsAux idxs 0 l

/-- Core of `random.sample(range n, k)`: `k` selection steps, each
consuming one stream value to choose one of the remaining candidates. -/
def sampleLoop (stream : Nat → Int) : Nat → Nat → List Nat → List Nat × Nat
  | ctr, 0, _ => ([], ctr)
  | ctr, k + 1, avail =>
    let x := avail.getD ((stream ctr).toNat % avail.length) 0
    let p := sampleLoop stream (ctr + 1) k (avail.erase x)
    (x :: p.1, p.2)

/-- `random.sample(list(range(n)), k)`: `ValueError` (here `none`) exactly
when `k > n`, otherwise `k` distinct members of `range n`. -/
def randSample (g : Rng) (n k : Nat) : Option (List Nat × Rng) :=
  if k ≤ n then
    let p := sampleLoop g.stream g.ctr k (List.range n)
    some (p.1, ⟨p.2, g.stream⟩)
  else none

/-- Half-open interval overlap on the same chromosome, the semantics of
`pyranges` used by `_find_overlap`. -/
def overlaps (a b : Region) : Bool :=
  a.chrom == b.chrom && decide (a.start < b.stop) && decide (b.start < a.stop)

/-- `_find_overlap`'s intersection content: the rows of the reference set
(`self.original_bed` unless a reference is supplied) that overlap at least
one comparison row, each reported once (`how='first'`), in reference
order. -/
def findOverlap (ref ext : List Region) : List Region :=
  ref.filter (fun r => ext.any (fun c => overlaps r c))

/-- The loop body of `shift` over the sampled rows, together with `_shift`:
per candidate row, draw `theshift = int(np.random.normal(mean, stdev))`
(one stream value, drawn before the bounds test), read the row
(`KeyError` if the label is absent), look up its chromosome length
(`KeyError` if absent), and either skip the candidate (counting it in
`invalid_shifted`) when the shifted region would leave `[0, chrom_len]`,
or record the replacement row (tag `'S'`) and the label to drop.
Returns `(new_row_list, to_drop, num_shifted, invalid_shifted, ctr')`. -/
def shiftLoop (lens : List (String × Int)) (bed : List Region) (stream : Nat → Int) :
    List Nat → Nat → Except BedErr (List Region × List Nat × Nat × Nat × Nat)
  | [], ctr => .ok ([], [], 0, 0, ctr)
  | row :: rest, ctr =>
    let theshift := stream ctr
    match bed.get? row with
    | none => .error .keyError
    | some r =>
      match lookupChrom lens r.chrom with
      | none => .error .keyError
      | some clen =>
        if r.start + theshift < 0 ∨ r.stop + theshift > clen then
          match shiftLoop lens bed stream rest (ctr + 1) with
          | .error e => .error e
          | .ok (nl, td, ns, iv, c) => .ok (nl, td, ns, iv + 1, c)
        else
          match shiftLoop lens bed stream rest (ctr + 1) with
          | .error e => .error e
          | .ok (nl, td, ns, iv, c) =>
            .ok (⟨r.chrom, r.start + theshift, r.stop + theshift, 'S'⟩ :: nl,
                 row :: td, ns + 1, iv, c)

/-- The tail of `shift` once the candidate row list is fixed: run the loop,
then `self.bed = self.bed.drop(to_drop).append(new_row_list)` and return
`num_shifted`. -/
def shiftCore (s : BState) (rows : List Nat) : OpResult :=
  match shiftLoop s.chromLens s.bed s.rng.stream rows s.rng.ctr with
  | .error e => ⟨some e, 0, s⟩
  | .ok (nl, td, ns, _iv, c) =>
    ⟨none, ns, { s with bed := removeIdxs s.bed td ++ nl, rng := ⟨c, s.rng.stream⟩ }⟩

/-- `Bedshift.shift(shiftrate, shiftmean, shiftstdev, shift_rows=None)`.
`_precheck(shiftrate, requiresChromLens=True)` first; when no explicit row
list is given the candidates are `random.sample(range(rows),
int(rows*shiftrate))`.  `shiftmean`/`shiftstdev` only parametrise the
normal distribution, whose integer outcomes are the oracle stream. -/
def shift (s : BState) (shiftrate shiftmean shiftstdev : ℚ)
    (shiftRows : Option (List Nat)) : OpResult :=
  if shiftrate < 0 ∨ 1 < shiftrate then ⟨some .invalidRate, 0, s⟩
  else if s.chromLens.isEmpty then ⟨some .missingChromLens, 0, s⟩
  else
    match shiftRows with
    | some rows => shiftCore s rows
    | none =>
      match randSample s.rng s.bed.length (numFromRate s.bed.length shiftrate) with
      | none => ⟨some .valueError, 0, s⟩
      | some (rows, g) => shiftCore { s with rng := g } rows

/-- `Bedshift.shift_from_file(fp, shiftrate, shiftmean, shiftstdev)`.
`ext` is the parsed content of `fp`.  `_precheck(shiftrate)` (no
chromosome-length requirement here); `num_shift = int(rows*shiftrate)`;
`_find_overlap(fp)` intersects `fp` with `self.original_bed` and raises
when the intersection is empty; `random.sample(range(len(intersect)),
num_shift)` raises `ValueError` — reported as insufficient overlap — when
`num_shift` exceeds the intersection size; the sampled positions are then
handed to `shift` as its explicit row list. -/
def shiftFromFile (s : BState) (ext : List Region)
    (shiftrate shiftmean shiftstdev : ℚ) : OpResult :=
  if shiftrate < 0 ∨ 1 < shiftrate then ⟨some .invalidRate, 0, s⟩
  else
    let numShift := numFromRate s.bed.length shiftrate
    let inter := findOverlap s.originalBed ext
    if inter.length = 0 then ⟨some .noOverlapFound, 0, s⟩
    else
      match randSample s.rng inter.length numShift with
      | none => ⟨some (.insufficientOverlap numShift inter.length), 0, s⟩
      | some (rows2shift, g) =>
        shift { s with rng := g } shiftrate shiftmean shiftstdev (some rows2shift)

/-- `pick_random_chroms(n)`: `random.choices(keys, weights, k=n)` zipped
with the lengths.  Each weighted choice consumes one stream value; under a
nonempty map all weights are positive, so any entry can be selected and
selecting by `stream mod size` is a faithful abstraction. -/
def pickChromsLoop (stream : Nat → Int) (lens : List (String × Int)) :
    Nat → Nat → List (String × Int) × Nat
  | ctr, 0 => ([], ctr)
  | ctr, k + 1 =>
    let c := lens.getD ((stream ctr).toNat % lens.length) ("", 0)
    let p := pickChromsLoop stream lens (ctr + 1) k
    (c :: p.1, p.2)

/-- The loop body of `add` over the chosen chromosomes: `start =
random.randint(1, chrom_len)` (`ValueError` when `chrom_len < 1`), `end =
min(start + int(np.random.normal(addmean, addstdev)), chrom_len)`, tag
`'A'`.  Two stream values per region. -/
def addLoop (stream : Nat → Int) : Nat → List (String × Int) →
    Except BedErr (List Region × Nat)
  | ctr, [] => .ok ([], ctr)
  | ctr, (cs, cl) :: rest =>
    if cl < 1 then .error .valueError
    else
      let start : Nat := 1 + (stream ctr).toNat % cl.toNat
      let lenDraw := stream (ctr + 1)
      let stop : Int := min ((start : Int) + lenDraw) cl
      match addLoop stream (ctr + 2) rest with
      | .error e => .error e
      | .ok (rs, c) => .ok (⟨cs, (start : Int), stop, 'A'⟩ :: rs, c)

/-- `Bedshift.add(addrate, addmean, addstdev)`: `_precheck(addrate,
requiresChromLens=True, isAdd=True)` (only negative rates are rejected),
`num_add = int(rows*addrate)` regions are built and appended, and
`num_add` is returned. -/
def add (s : BState) (addrate addmean addstdev : ℚ) : OpResult :=
  if addrate < 0 then ⟨some .invalidRate, 0, s⟩
  else if s.chromLens.isEmpty then ⟨some .missingChromLens, 0, s⟩
  else
    let numAdd := numFromRate s.bed.length addrate
    let p := pickChromsLoop s.rng.stream s.chromLens s.rng.ctr numAdd
    match addLoop s.rng.stream p.2 p.1 with
    | .error e => ⟨some e, 0, s⟩
    | .ok (newRegions, c) =>
      ⟨none, numAdd, { s with bed := s.bed ++ newRegions, rng := ⟨c, s.rng.stream⟩ }⟩

/-- `Bedshift.add_from_file(fp, addrate)`: `num_add = int(rows*addrate)`
clamped to the external file's size, `num_add` distinct external rows are
sampled, retagged `'A'` and appended; returns the clamped `num_add`. -/
def addFromFile (s : BState) (ext : List Region) (addrate : ℚ) : OpResult :=
  if addrate < 0 then ⟨some .invalidRate, 0, s⟩
  else if s.chromLens.isEmpty then ⟨some .missingChromLens, 0, s⟩
  else
    let numAdd := numFromRate s.bed.length addrate
    let numAdd := if ext.length < numAdd then ext.length else numAdd
    match randSample s.rng ext.length numAdd with
    | none => ⟨some .valueError, 0, s⟩
    | some (addRows, g) =>
      let addDf := addRows.map (fun i => { ext.getD i default with tag := 'A' })
      ⟨none, numAdd, { s with bed := s.bed ++ addDf, rng := g }⟩

/-- `_cut`'s cut point: `thecut = (start+end)//2` (Python floor division),
then `if thecut <= start: thecut = start+10`, then (on the updated value)
`if thecut >= end: thecut = end-10`. -/
def cutMid (r : Region) : Int :=
  let c0 := Int.fdiv (r.start + r.stop) 2
  let c1 := if c0 ≤ r.start then r.start + 10 else c0
  if c1 ≥ r.stop then r.stop - 10 else c1

/-- The two replacement rows `_cut` returns for a region, both tagged
`'C'`: `[start, thecut)` and `[thecut, end)`. -/
def cutPair (r : Region) : List Region :=
  [⟨r.chrom, r.start, cutMid r, 'C'⟩, ⟨r.chrom, cutMid r, r.stop, 'C'⟩]

/-- The loop of `cut` over the sampled rows: each row is read
(`KeyError` if the label is absent — unreachable from `cut` itself, whose
samples are in range) and contributes its label to `to_drop` and its two
`_cut` halves to `new_row_list`. -/
def cutLoop (bed : List Region) : List Nat → Except BedErr (List Region × List Nat)
  | [] => .ok ([], [])
  | row :: rest =>
    match bed.get? row with
    | none => .error .keyError
    | some r =>
      match cutLoop bed rest with
      | .error e => .error e
      | .ok (nl, td) => .ok (cutPair r ++ nl, row :: td)

/-- `Bedshift.cut(cutrate)`: `_precheck(cutrate)`, sample
`int(rows*cutrate)` rows, replace each by its two halves, return the
number of sampled rows. -/
def cut (s : BState) (cutrate : ℚ) : OpResult :=
  if cutrate < 0 ∨ 1 < cutrate then ⟨some .invalidRate, 0, s⟩
  else
    match randSample s.rng s.bed.length (numFromRate s.bed.length cutrate) with
    | none => ⟨some .valueError, 0, s⟩
    | some (cutRows, g) =>
      match cutLoop s.bed cutRows with
      | .error e => ⟨some e, 0, s⟩
      | .ok (nl, td) =>
        ⟨none, cutRows.length, { s with bed := removeIdxs s.bed td ++ nl, rng := g }⟩

/-- `_merge(row)`: if `row+1` is not a label of the frame, or the two rows
sit on different chromosomes, return `([], None)` (the sampled row is left
untouched); otherwise drop both rows and add one region from row `row`'s
start to row `row+1`'s end, tagged `'M'`.  (When `row+1` is a valid
positional label so is `row`, hence no `KeyError` is possible here.) -/
def mergeOne (bed : List Region) (row : Nat) : List Nat × Option Region :=
  match bed.get? (row + 1), bed.get? row with
  | some r2, some r1 =>
    if r1.chrom = r2.chrom then
      ([row, row + 1], some ⟨r1.chrom, r1.start, r2.stop, 'M'⟩)
    else ([], none)
  | _, _ => ([], none)

/-- The loop of `merge` over the sampled rows, accumulating `to_add` and
`to_drop` in sample order. -/
def mergeLoop (bed : List Region) : List Nat → List Region × List Nat
  | [] => ([], [])
  | row :: rest =>
    let p := mergeOne bed row
    let q := mergeLoop bed rest
    ((match p.2 with | some a => a :: q.1 | none => q.1), p.1 ++ q.2)

/-- `Bedshift.merge(mergerate)`: `_precheck(mergerate)`, sample
`int(rows*mergerate)` rows, attempt `_merge` on each, and return the
number of sampled rows (not the number of successful merges). -/
def merge (s : BState) (mergerate : ℚ) : OpResult :=
  if mergerate < 0 ∨ 1 < mergerate then ⟨some .invalidRate, 0, s⟩
  else
    match randSample s.rng s.bed.length (numFromRate s.bed.length mergerate) with
    | none => ⟨some .valueError, 0, s⟩
    | some (mergeRows, g) =>
      let p := mergeLoop s.bed mergeRows
      ⟨none, mergeRows.length,
        { s with bed := removeIdxs s.bed p.2 ++ p.1, rng := g }⟩

/-- `Bedshift.drop(droprate)`: `_precheck(droprate)`, sample
`int(rows*droprate)` rows, drop them, return the number of sampled rows. -/
def drop (s : BState) (droprate : ℚ) : OpResult :=
  if droprate < 0 ∨ 1 < droprate then ⟨some .invalidRate, 0, s⟩
  else
    match randSample s.rng s.bed.length (numFromRate s.bed.length droprate) with
    | none => ⟨some .valueError, 0, s⟩
    | some (dropRows, g) =>
      ⟨none, dropRows.length, { s with bed := removeIdxs s.bed dropRows, rng := g }⟩

/-- `Bedshift.drop_from_file(fp, droprate)`: only negative rates are
rejected; a rate of exactly 0 returns 0 before the file is read or any
overlap is computed; otherwise `num_drop = int(rows*droprate)` is clamped
to the external file's size, the intersection with `self.original_bed` is
computed (raising when empty), `num_drop` positions of the intersection
are sampled and dropped from the working frame by label (`KeyError` when a
sampled label is not a current row), and the clamped `num_drop` is
returned. -/
def dropFromFile (s : BState) (ext : List Region) (droprate : ℚ) : OpResult :=
  if droprate < 0 then ⟨some .invalidRate, 0, s⟩
  else if droprate = 0 then ⟨none, 0, s⟩
  else
    let numDrop := numFromRate s.bed.length droprate
    let numDrop := if ext.length ≤ numDrop then ext.length else numDrop
    let inter := findOverlap s.originalBed ext
    if inter.length = 0 then ⟨some .noOverlapFound, 0, s⟩
    else
      match randSample s.rng inter.length numDrop with
      | none => ⟨some .valueError, 0, s⟩
      | some (rows2drop, g) =>
        if rows2drop.any (fun i => s.bed.length ≤ i) then ⟨some .keyError, 0, s⟩
        else ⟨none, numDrop, { s with bed := removeIdxs s.bed rows2drop, rng := g }⟩

/-! ### Concrete fixtures used by witnesses and counterexamples -/

/-- A constant oracle stream. -/
def constStream (v : Int) : Nat → Int := fun _ => v

def regA : Region := ⟨"chr1", 0, 10, '-'⟩

def regB : Region := ⟨"chr1", 100, 110, '-'⟩

def regC : Region := ⟨"chr1", 20, 30, '-'⟩

/-- One in-bounds row on `chr1` (length 1000), stream constantly 5. -/
def stOne : BState := ⟨[regA], [regA], [("chr1", 1000)], ⟨0, constStream 5⟩⟩

/-- Two sorted rows on `chr1` (length 1000), stream constantly 1. -/
def stTwo : BState := ⟨[regA, regB], [regA, regB], [("chr1", 1000)], ⟨0, constStream 1⟩⟩

/-- External set overlapping only the second row of `stTwo`. -/
def extB : List Region := [⟨"chr1", 105, 106, '-'⟩]

/-- A row whose start is already negative, its chromosome in the map. -/
def stNeg : BState :=
  ⟨[⟨"chr1", -5, 3, '-'⟩], [⟨"chr1", -5, 3, '-'⟩], [("chr1", 1000)], ⟨0, constStream 0⟩⟩

/-- Two identical rows. -/
def stDup : BState := ⟨[regA, regA], [regA, regA], [("chr1", 1000)], ⟨0, constStream 0⟩⟩

/-- A bed with an empty chromosome length map. -/
def stNoLens : BState := ⟨[regA], [regA], [], ⟨0, constStream 0⟩⟩

/-- Two separated rows, used together with `extA`. -/
def stAB : BState := ⟨[regA, regC], [regA, regC], [("chr1", 1000)], ⟨0, constStream 0⟩⟩

/-- External set overlapping only the first row of `stAB`. -/
def extA : List Region := [⟨"chr1", 5, 6, '-'⟩]

/-- External set on another chromosome: no overlap with any fixture. -/
def extNone : List Region := [⟨"chr2", 0, 5, '-'⟩]

/-! ### Lemmas about the modelling primitives -/

theorem numFromRate_eq (rows : Nat) (rate : ℚ) :
    numFromRate rows rate = (⌊(rows : ℚ) * rate⌋).toNat := by
  rw [numFromRate, Rat.floor_def', ← Rat.floor_def]

theorem numFromRate_zero (rows : Nat) : numFromRate rows 0 = 0 := by
  simp [numFromRate_eq]

theorem numFromRate_le (rows : Nat) (rate : ℚ) (h1 : rate ≤ 1) :
    numFromRate rows rate ≤ rows := by
  rw [numFromRate_eq]
  have hq : (rows : ℚ) * rate ≤ (rows : ℚ) := by
    calc (rows : ℚ) * rate ≤ (rows : ℚ) * 1 :=
          mul_le_mul_of_nonneg_left h1 (by positivity)
      _ = (rows : ℚ) := mul_one _
  have h : ⌊(rows : ℚ) * rate⌋ ≤ (rows : Int) :=
    calc ⌊(rows : ℚ) * rate⌋ ≤ ⌊(rows : ℚ)⌋ := Int.floor_le_floor hq
      _ = (rows : Int) := Int.floor_natCast rows
  omega

theorem getD_mem {α : Type _} (l : List α) (i : Nat) (d : α) (h : i < l.length) :
    l.getD i d ∈ l := by
  induction l generalizing i with
  | nil => simp at h
  | cons x xs ih =>
    cases i with
    | zero => simp [List.getD_cons_zero]
    | succ j =>
      simp only [List.getD_cons_succ]
      exact List.mem_cons_of_mem _ (ih j (by simpa using h))

theorem sampleLoop_ctr (stream : Nat → Int) :
    ∀ (k ctr : Nat) (avail : List Nat), (sampleLoop stream ctr k avail).2 = ctr + k := by
  intro k
  induction k with
  | zero => intro ctr avail; rfl
  | succ n ih =>
    intro ctr avail
    simp only [sampleLoop, ih]
    omega

theorem sampleLoop_sel (stream : Nat → Int) :
    ∀ (k ctr : Nat) (avail : List Nat), avail.Nodup → k ≤ avail.length →
      (sampleLoop stream ctr k avail).1.length = k ∧
      (∀ x ∈ (sampleLoop stream ctr k avail).1, x ∈ avail) ∧
      (sampleLoop stream ctr k avail).1.Nodup := by
  intro k
  induction k with
  | zero => intro ctr avail _ _; simp [sampleLoop]
  | succ n ih =>
    intro ctr avail hnd hk
    have hpos : 0 < avail.length := by omega
    have hilt : (stream ctr).toNat % avail.length < avail.length := Nat.mod_lt _ hpos
    have hxmem : avail.getD ((stream ctr).toNat % avail.length) 0 ∈ avail :=
      getD_mem avail _ 0 hilt
    have hlen : (avail.erase (avail.getD ((stream ctr).toNat % avail.length) 0)).length
        = avail.length - 1 := List.length_erase_of_mem hxmem
    have hnd' : (avail.erase (avail.getD ((stream ctr).toNat % avail.length) 0)).Nodup :=
      hnd.erase _
    have hk' : n ≤ (avail.erase (avail.getD ((stream ctr).toNat % avail.length) 0)).length := by
      omega
    obtain ⟨h1, h2, h3⟩ := ih (ctr + 1) (avail.erase _) hnd' hk'
    refine ⟨?_, ?_, ?_⟩
    · simpa [sampleLoop] using h1
    · intro x hx
      simp only [sampleLoop, List.mem_cons] at hx
      rcases hx with rfl | hx
      · exact hxmem
      · exact List.erase_subset _ _ (h2 x hx)
    · simp only [sampleLoop, List.nodup_cons]
      refine ⟨fun hmem => ?_, h3⟩
      have := (hnd.mem_erase_iff).mp (h2 _ hmem)
      exact this.1 rfl

theorem randSample_some (g : Rng) (n k : Nat) (hk : k ≤ n) :
    ∃ xs, randSample g n k = some (xs, ⟨g.ctr + k, g.stream⟩) ∧
      xs.length = k ∧ xs.Nodup ∧ ∀ x ∈ xs, x < n := by
  have hk' : k ≤ (List.range n).length := by simpa using hk
  obtain ⟨h1, h2, h3⟩ := sampleLoop_sel g.stream k g.ctr (List.range n) (List.nodup_range n) hk'
  refine ⟨(sampleLoop g.stream g.ctr k (List.range n)).1, ?_, h1, h3, ?_⟩
  · simp [randSample, hk, sampleLoop_ctr]
  · intro x hx
    exact List.mem_range.mp (h2 x hx)

theorem randSample_zero (g : Rng) (n : Nat) : randSample g n 0 = some ([], g) := by
  simp [randSample, sampleLoop]

theorem removeIdxsAux_nil_idxs {α : Type _} :
    ∀ (j : Nat) (l : List α), removeIdxsAux [] j l = l := by
  intro j l
  induction l generalizing j with
  | nil => rfl
  | cons y ys ih => simp [removeIdxsAux, ih]

theorem removeIdxs_nil {α : Type _} (l : List α) : removeIdxs l [] = l :=
  removeIdxsAux_nil_idxs 0 l

theorem mem_removeIdxsAux {α : Type _} {idxs : List Nat} :
    ∀ {j : Nat} {l : List α} {x : α}, x ∈ removeIdxsAux idxs j l →
      ∃ k, ∃ h : k < l.length, (j + k) ∉ idxs ∧ l.get ⟨k, h⟩ = x := by
  intro j l
  induction l generalizing j with
  | nil => intro x hx; simp [removeIdxsAux] at hx
  | cons y ys ih =>
    intro x hx
    by_cases hj : j ∈ idxs
    · simp only [removeIdxsAux, if_pos hj] at hx
      obtain ⟨k, hk, hnin, hget⟩ := ih hx
      refine ⟨k + 1, by simpa using Nat.succ_lt_succ hk, ?_, by simpa using hget⟩
      have heq : j + (k + 1) = (j + 1) + k := by omega
      rw [heq]; exact hnin
    · simp only [removeIdxsAux, if_neg hj, List.mem_cons] at hx
      rcases hx with rfl | hx
      · exact ⟨0, by simp, by simpa using hj, rfl⟩
      · obtain ⟨k, hk, hnin, hget⟩ := ih hx
        refine ⟨k + 1, by simpa using Nat.succ_lt_succ hk, ?_, by simpa using hget⟩
        have heq : j + (k + 1) = (j + 1) + k := by omega
        rw [heq]; exact hnin

theorem mem_of_mem_removeIdxs {α : Type _} {l : List α} {idxs : List Nat} {x : α}
    (h : x ∈ removeIdxs l idxs) : x ∈ l := by
  obtain ⟨k, hk, _, hget⟩ := mem_removeIdxsAux h
  exact hget ▸ List.get_mem l k hk

theorem get_not_mem_removeIdxs {α : Type _} {l : List α} (hnd : l.Nodup) {idxs : List Nat}
    {i : Nat} (hi : i ∈ idxs) (h : i < l.length) :
    l.get ⟨i, h⟩ ∉ removeIdxs l idxs := by
  intro hmem
  obtain ⟨k, hk, hnin, hget⟩ := mem_removeIdxsAux hmem
  rw [Nat.zero_add] at hnin
  have hfin : (⟨k, hk⟩ : Fin l.length) = ⟨i, h⟩ := (hnd.get_inj_iff).mp hget
  have : k = i := by simpa using congrArg Fin.val hfin
  exact hnin (this ▸ hi)

theorem length_removeIdxsAux {α : Type _} (idxs : List Nat) :
    ∀ (l : List α) (j : Nat),
      (removeIdxsAux idxs j l).length
        = l.length - ((List.range' j l.length).filter (fun i => decide (i ∈ idxs))).length := by
  intro l
  induction l with
  | nil => intro j; simp [removeIdxsAux]
  | cons y ys ih =>
    intro j
    have hle : ((List.range' (j + 1) ys.length).filter
        (fun i => decide (i ∈ idxs))).length ≤ ys.length := by
      calc ((List.range' (j + 1) ys.length).filter (fun i => decide (i ∈ idxs))).length
          ≤ (List.range' (j + 1) ys.length).length := List.length_filter_le _ _
        _ = ys.length := List.length_range' _ _ _
    by_cases hj : j ∈ idxs
    · simp only [removeIdxsAux, if_pos hj, List.length_cons, List.range'_succ,
        List.filter_cons, hj, decide_True, if_true, ih]
      omega
    · simp only [removeIdxsAux, if_neg hj, List.length_cons, List.range'_succ,
        List.filter_cons, hj, decide_False, Bool.false_eq_true, if_false, ih]
      omega

theorem length_removeIdxs {α : Type _} (l : List α) (idxs : List Nat) (hnd : idxs.Nodup)
    (hlt : ∀ i ∈ idxs, i < l.length) :
    (removeIdxs l idxs).length = l.length - idxs.length := by
  rw [removeIdxs, length_removeIdxsAux]
  congr 1
  rw [← List.range_eq_range']
  have hperm : List.Perm ((List.range l.length).filter (fun i => decide (i ∈ idxs))) idxs := by
    refine (List.perm_ext_iff_of_nodup (List.Nodup.filter _ (List.nodup_range _)) hnd).mpr ?_
    intro a
    simp only [List.mem_filter, List.mem_range, decide_eq_true_eq, and_iff_right_iff_imp]
    exact hlt a
  exact hperm.length_eq

/-! ### Specifications of the operator loops -/

theorem shiftLoop_spec (lens : List (String × Int)) (bed : List Region) (stream : Nat → Int) :
    ∀ (rows : List Nat) (ctr : Nat),
      (∀ i ∈ rows, i < bed.length) →
      (∀ r ∈ bed, (lookupChrom lens r.chrom).isSome) →
      ∃ nl td ns iv c,
        shiftLoop lens bed stream rows ctr = .ok (nl, td, ns, iv, c) ∧
        ns + iv = rows.length ∧
        (∀ r ∈ nl, regionInBounds lens r = true) ∧
        (∀ j ∈ td, j ∈ rows) := by
  intro rows
  induction rows with
  | nil =>
    intro ctr _ _
    exact ⟨[], [], 0, 0, ctr, rfl, rfl, by intro r h; simp at h, by intro j h; simp at h⟩
  | cons row rest ih =>
    intro ctr hlt hin
    have hr : row < bed.length := hlt row (List.mem_cons_self _ _)
    have hget : bed.get? row = some (bed.get ⟨row, hr⟩) := List.get?_eq_get hr
    have hmem : bed.get ⟨row, hr⟩ ∈ bed := List.get_mem bed row hr
    obtain ⟨clen, hclen⟩ := Option.isSome_iff_exists.mp (hin _ hmem)
    obtain ⟨nl, td, ns, iv, c, heq, hcnt, hbnd, htd⟩ :=
      ih (ctr + 1) (fun i hi => hlt i (List.mem_cons_of_mem _ hi)) hin
    by_cases hskip : (bed.get ⟨row, hr⟩).start + stream ctr < 0 ∨
        (bed.get ⟨row, hr⟩).stop + stream ctr > clen
    · refine ⟨nl, td, ns, iv + 1, c, ?_, by simp only [List.length_cons]; omega, hbnd,
        fun j hj => List.mem_cons_of_mem _ (htd j hj)⟩
      simp only [shiftLoop, hget, hclen, if_pos hskip, heq]
    · refine ⟨⟨(bed.get ⟨row, hr⟩).chrom, (bed.get ⟨row, hr⟩).start + stream ctr,
          (bed.get ⟨row, hr⟩).stop + stream ctr, 'S'⟩ :: nl, row :: td, ns + 1, iv, c,
        ?_, by simp only [List.length_cons]; omega, ?_, ?_⟩
      · simp only [shiftLoop, hget, hclen, if_neg hskip, heq]
      · intro r hrm
        rcases List.mem_cons.mp hrm with rfl | hrm
        · simp only [regionInBounds, lookupChrom] at hclen ⊢
          rw [hclen]
          push_neg at hskip
          simp only [Bool.and_eq_true, decide_eq_true_eq]
          omega
        · exact hbnd r hrm
      · intro j hj
        rcases List.mem_cons.mp hj with rfl | hj
        · exact List.mem_cons_self _ _
        · exact List.mem_cons_of_mem _ (htd j hj)

theorem cutLoop_ok (bed : List Region) :
    ∀ rows : List Nat, (∀ i ∈ rows, i < bed.length) →
      cutLoop bed rows
        = .ok (rows.flatMap (fun i => cutPair (bed.getD i default)), rows) := by
  intro rows
  induction rows with
  | nil => intro _; rfl
  | cons row rest ih =>
    intro h
    have hr : row < bed.length := h row (List.mem_cons_self _ _)
    have hget : bed.get? row = some (bed.get ⟨row, hr⟩) := List.get?_eq_get hr
    have hrec := ih (fun i hi => h i (List.mem_cons_of_mem _ hi))
    simp only [cutLoop, hget, hrec, List.flatMap_cons]
    have : bed.getD row default = bed.get ⟨row, hr⟩ := by
      simp [List.getD_eq_getElem, hr, List.get_eq_getElem]
    rw [this]

theorem length_flatMap_cutPair (bed : List Region) (rows : List Nat) :
    (rows.flatMap (fun i => cutPair (bed.getD i default))).length = 2 * rows.length := by
  induction rows with
  | nil => rfl
  | cons r rest ih =>
    rw [List.flatMap_cons, List.length_append, ih]
    simp only [cutPair, List.length_cons, List.length_nil]
    omega

theorem mergeOne_cases (bed : List Region) (row : Nat) :
    mergeOne bed row = ([], none) ∨
    ∃ (h2 : row + 1 < bed.length) (h1 : row < bed.length),
      (bed.get ⟨row, h1⟩).chrom = (bed.get ⟨row + 1, h2⟩).chrom ∧
      mergeOne bed row = ([row, row + 1],
        some ⟨(bed.get ⟨row, h1⟩).chrom, (bed.get ⟨row, h1⟩).start,
          (bed.get ⟨row + 1, h2⟩).stop, 'M'⟩) := by
  by_cases h2 : row + 1 < bed.length
  · have h1 : row < bed.length := by omega
    have e2 : bed[row + 1]? = some (bed.get ⟨row + 1, h2⟩) := by
      rw [← List.get?_eq_getElem?]; exact List.get?_eq_get h2
    have e1 : bed[row]? = some (bed.get ⟨row, h1⟩) := by
      rw [← List.get?_eq_getElem?]; exact List.get?_eq_get h1
    by_cases hc : (bed.get ⟨row, h1⟩).chrom = (bed.get ⟨row + 1, h2⟩).chrom
    · exact Or.inr ⟨h2, h1, hc, by
        simp only [List.get_eq_getElem] at hc
        simp [mergeOne, e1, e2, hc]⟩
    · exact Or.inl (by
        simp only [List.get_eq_getElem] at hc
        simp [mergeOne, e1, e2, hc])
  · have e2 : bed[row + 1]? = none := by
      rw [← List.get?_eq_getElem?]; exact List.get?_eq_none.mpr (by omega)
    exact Or.inl (by simp [mergeOne, e2])

theorem mergeLoop_spec (bed : List Region) :
    ∀ rows : List Nat,
      (∀ a ∈ (mergeLoop bed rows).1, ∃ i ∈ rows,
        ∃ (h2 : i + 1 < bed.length) (h1 : i < bed.length),
          (bed.get ⟨i, h1⟩).chrom = (bed.get ⟨i + 1, h2⟩).chrom ∧
          a = ⟨(bed.get ⟨i, h1⟩).chrom, (bed.get ⟨i, h1⟩).start,
            (bed.get ⟨i + 1, h2⟩).stop, 'M'⟩) ∧
      (∀ j ∈ (mergeLoop bed rows).2, ∃ i ∈ rows,
        ∃ (h2 : i + 1 < bed.length) (h1 : i < bed.length),
          (j = i ∨ j = i + 1) ∧
          (bed.get ⟨i, h1⟩).chrom = (bed.get ⟨i + 1, h2⟩).chrom) := by
  intro rows
  induction rows with
  | nil =>
    constructor
    · intro a ha; simp [mergeLoop] at ha
    · intro j hj; simp [mergeLoop] at hj
  | cons row rest ih =>
    rcases mergeOne_cases bed row with hcase | ⟨h2, h1, hc, hcase⟩
    · constructor
      · intro a ha
        simp only [mergeLoop, hcase, List.nil_append] at ha
        obtain ⟨i, hi, hrest⟩ := ih.1 a ha
        exact ⟨i, List.mem_cons_of_mem _ hi, hrest⟩
      · intro j hj
        simp only [mergeLoop, hcase, List.nil_append] at hj
        obtain ⟨i, hi, hrest⟩ := ih.2 j hj
        exact ⟨i, List.mem_cons_of_mem _ hi, hrest⟩
    · constructor
      · intro a ha
        simp only [mergeLoop, hcase, List.mem_cons] at ha
        rcases ha with rfl | ha
        · exact ⟨row, List.mem_cons_self _ _, h2, h1, hc, rfl⟩
        · obtain ⟨i, hi, hrest⟩ := ih.1 a ha
          exact ⟨i, List.mem_cons_of_mem _ hi, hrest⟩
      · intro j hj
        simp only [mergeLoop, hcase, List.cons_append, List.mem_cons,
          List.singleton_append] at hj
        rcases hj with rfl | rfl | hj
        · exact ⟨j, List.mem_cons_self _ _, h2, h1, Or.inl rfl, hc⟩
        · exact ⟨row, List.mem_cons_self _ _, h2, h1, Or.inr rfl, hc⟩
        · obtain ⟨i, hi, hrest⟩ := ih.2 j hj
          exact ⟨i, List.mem_cons_of_mem _ hi, hrest⟩

theorem pickChromsLoop_spec (stream : Nat → Int) (lens : List (String × Int))
    (hne : lens ≠ []) :
    ∀ (k ctr : Nat),
      (pickChromsLoop stream lens ctr k).1.length = k ∧
      (∀ p ∈ (pickChromsLoop stream lens ctr k).1, p ∈ lens) := by
  intro k
  induction k with
  | zero =>
    intro ctr
    exact ⟨rfl, by intro p hp; simp [pickChromsLoop] at hp⟩
  | succ n ih =>
    intro ctr
    have hpos : 0 < lens.length := List.length_pos.mpr hne
    constructor
    · simpa [pickChromsLoop] using (ih (ctr + 1)).1
    · intro p hp
      simp only [pickChromsLoop, List.mem_cons] at hp
      rcases hp with rfl | hp
      · exact getD_mem _ _ _ (Nat.mod_lt _ hpos)
      · exact (ih (ctr + 1)).2 p hp

theorem addLoop_spec (stream : Nat → Int) :
    ∀ (chroms : List (String × Int)) (ctr : Nat), (∀ p ∈ chroms, 1 ≤ p.2) →
      ∃ rs c, addLoop stream ctr chroms = .ok (rs, c) ∧
        rs.length = chroms.length ∧
        ∀ reg ∈ rs, ∃ p ∈ chroms, reg.chrom = p.1 ∧ 1 ≤ reg.start ∧ reg.start ≤ p.2 ∧
          reg.stop ≤ p.2 ∧ reg.tag = 'A' := by
  intro chroms
  induction chroms with
  | nil =>
    intro ctr _
    exact ⟨[], ctr, rfl, rfl, by intro reg h; simp at h⟩
  | cons p rest ih =>
    intro ctr hall
    obtain ⟨cs, cl⟩ := p
    have hcl : (1 : Int) ≤ cl := hall (cs, cl) (List.mem_cons_self _ _)
    have hnlt : ¬ cl < 1 := by omega
    obtain ⟨rs, c, heq, hlen, hmem⟩ :=
      ih (ctr + 2) (fun q hq => hall q (List.mem_cons_of_mem _ hq))
    refine ⟨⟨cs, ((1 + (stream ctr).toNat % cl.toNat : Nat) : Int),
        min (((1 + (stream ctr).toNat % cl.toNat : Nat) : Int) + stream (ctr + 1)) cl,
        'A'⟩ :: rs, c, ?_, by simp [hlen], ?_⟩
    · simp only [addLoop, if_neg hnlt, heq]
    · intro reg hreg
      rcases List.mem_cons.mp hreg with rfl | hreg
      · refine ⟨(cs, cl), List.mem_cons_self _ _, rfl, ?_, ?_, min_le_right _ _, rfl⟩
        · simp only
          omega
        · have hmod : (stream ctr).toNat % cl.toNat < cl.toNat :=
            Nat.mod_lt _ (by omega)
          simp only
          omega
      · obtain ⟨q, hq, hrest⟩ := hmem reg hreg
        exact ⟨q, List.mem_cons_of_mem _ hq, hrest⟩

/-! ### Rate-zero behaviour of each operator -/

theorem rate_zero_not_bad : ¬((0 : ℚ) < 0 ∨ 1 < (0 : ℚ)) := by norm_num

theorem cut_zero (s : BState) : cut s 0 = ⟨none, 0, s⟩ := by
  simp only [cut, if_neg rate_zero_not_bad, numFromRate_zero, randSample_zero,
    cutLoop, removeIdxs_nil, List.append_nil]
  rfl

theorem merge_zero (s : BState) : merge s 0 = ⟨none, 0, s⟩ := by
  simp only [merge, if_neg rate_zero_not_bad, numFromRate_zero, randSample_zero,
    mergeLoop, removeIdxs_nil, List.append_nil, List.length_nil]

theorem drop_zero (s : BState) : drop s 0 = ⟨none, 0, s⟩ := by
  simp only [drop, if_neg rate_zero_not_bad, numFromRate_zero, randSample_zero,
    removeIdxs_nil, List.length_nil]

theorem dropFromFile_zero (s : BState) (ext : List Region) :
    dropFromFile s ext 0 = ⟨none, 0, s⟩ := by
  rw [dropFromFile, if_neg (by norm_num : ¬ (0 : ℚ) < 0), if_pos rfl]

theorem shift_zero (s : BState) (mean stdev : ℚ) (hne : ¬ s.chromLens.isEmpty) :
    shift s 0 mean stdev none = ⟨none, 0, s⟩ := by
  simp only [shift, if_neg rate_zero_not_bad, if_neg hne, numFromRate_zero,
    randSample_zero, shiftCore, shiftLoop, removeIdxs_nil, List.append_nil]

theorem add_zero (s : BState) (mean stdev : ℚ) (hne : ¬ s.chromLens.isEmpty) :
    add s 0 mean stdev = ⟨none, 0, s⟩ := by
  simp only [add, if_neg (by norm_num : ¬ (0 : ℚ) < 0), if_neg hne, numFromRate_zero,
    pickChromsLoop, addLoop, List.append_nil]

theorem addFromFile_zero (s : BState) (ext : List Region) (hne : ¬ s.chromLens.isEmpty) :
    addFromFile s ext 0 = ⟨none, 0, s⟩ := by
  simp only [addFromFile, if_neg (by norm_num : ¬ (0 : ℚ) < 0), if_neg hne,
    numFromRate_zero, if_neg (Nat.not_lt_zero ext.length), randSample_zero,
    List.map_nil, List.append_nil]

theorem shiftFromFile_zero (s : BState) (ext : List Region) (mean stdev : ℚ)
    (hne : ¬ s.chromLens.isEmpty) (hov : (findOverlap s.originalBed ext).length ≠ 0) :
    shiftFromFile s ext 0 mean stdev = ⟨none, 0, s⟩ := by
  simp only [shiftFromFile, if_neg rate_zero_not_bad, numFromRate_zero, if_neg hov,
    randSample_zero, shift, if_neg hne, shiftCore, shiftLoop, removeIdxs_nil,
    List.append_nil]

/-! ### On every error path the working set is unchanged -/

theorem shiftCore_err (s : BState) (rows : List Nat) :
    (shiftCore s rows).err.isSome → (shiftCore s rows).state.bed = s.bed := by
  unfold shiftCore
  split
  · intro _; rfl
  · intro h; simp at h

theorem shift_err (s : BState) (rate mean stdev : ℚ) (o : Option (List Nat)) :
    (shift s rate mean stdev o).err.isSome →
      (shift s rate mean stdev o).state.bed = s.bed := by
  unfold shift
  split
  · intro _; rfl
  · split
    · intro _; rfl
    · split
      · exact shiftCore_err s _
      · split
        · intro _; rfl
        · exact shiftCore_err _ _

theorem shiftFromFile_err (s : BState) (ext : List Region) (rate mean stdev : ℚ) :
    (shiftFromFile s ext rate mean stdev).err.isSome →
      (shiftFromFile s ext rate mean stdev).state.bed = s.bed := by
  unfold shiftFromFile
  dsimp only
  split
  · intro _; rfl
  · split
    · intro _; rfl
    · split
      · intro _; rfl
      · exact shift_err _ _ _ _ _

theorem add_err (s : BState) (rate mean stdev : ℚ) :
    (add s rate mean stdev).err.isSome → (add s rate mean stdev).state.bed = s.bed := by
  unfold add
  dsimp only
  split
  · intro _; rfl
  · split
    · intro _; rfl
    · split
      · intro _; rfl
      · intro h; simp at h

theorem addFromFile_err (s : BState) (ext : List Region) (rate : ℚ) :
    (addFromFile s ext rate).err.isSome →
      (addFromFile s ext rate).state.bed = s.bed := by
  unfold addFromFile
  dsimp only
  split
  · intro _; rfl
  · split
    · intro _; rfl
    · split
      · intro _; rfl
      · intro h; simp at h

theorem cut_err (s : BState) (rate : ℚ) :
    (cut s rate).err.isSome → (cut s rate).state.bed = s.bed := by
  unfold cut
  split
  · intro _; rfl
  · split
    · intro _; rfl
    · split
      · intro _; rfl
      · intro h; simp at h

theorem merge_err (s : BState) (rate : ℚ) :
    (merge s rate).err.isSome → (merge s rate).state.bed = s.bed := by
  unfold merge
  split
  · intro _; rfl
  · split
    · intro _; rfl
    · intro h; simp at h

theorem drop_err (s : BState) (rate : ℚ) :
    (drop s rate).err.isSome → (drop s rate).state.bed = s.bed := by
  unfold drop
  split
  · intro _; rfl
  · split
    · intro _; rfl
    · intro h; simp at h

theorem dropFromFile_err (s : BState) (ext : List Region) (rate : ℚ) :
    (dropFromFile s ext rate).err.isSome →
      (dropFromFile s ext rate).state.bed = s.bed := by
  unfold dropFromFile
  dsimp only
  split
  · intro _; rfl
  · split
    · intro h; simp at h
    · split
      · intro _; rfl
      · split
        · intro _; rfl
        · split
          · intro _; rfl
          · intro h; simp at h

/-! ### Claim theorems -/

theorem shiftCore_spec (s : BState) (rows : List Nat)
    (hb : ∀ r ∈ s.bed, regionInBounds s.chromLens r = true)
    (hrows : ∀ i ∈ rows, i < s.bed.length) :
    (shiftCore s rows).err = none ∧
    (∀ r ∈ (shiftCore s rows).state.bed, regionInBounds s.chromLens r = true) ∧
    ∃ skipped, (shiftCore s rows).count + skipped = rows.length := by
  have hin : ∀ r ∈ s.bed, (lookupChrom s.chromLens r.chrom).isSome := by
    intro r hr
    have hbr := hb r hr
    unfold regionInBounds at hbr
    cases h : lookupChrom s.chromLens r.chrom with
    | none => rw [h] at hbr; exact absurd hbr (by simp)
    | some l => rfl
  obtain ⟨nl, td, ns, iv, c, heq, hcnt, hbnd, _⟩ :=
    shiftLoop_spec s.chromLens s.bed s.rng.stream rows s.rng.ctr hrows hin
  have hmain : shiftCore s rows = ⟨none, ns,
      { s with bed := removeIdxs s.bed td ++ nl, rng := ⟨c, s.rng.stream⟩ }⟩ := by
    simp only [shiftCore, heq]
  rw [hmain]
  refine ⟨rfl, ?_, iv, hcnt⟩
  intro r hr
  rcases List.mem_append.mp hr with hr | hr
  · exact hb r (mem_of_mem_removeIdxs hr)
  · exact hbnd r hr

/-- C1 (amended): on a working set every row of which already lies inside
its chromosome (chromosome present in the nonempty length map, `0 ≤ start`
and `end` at most the chromosome length), `shift` — parametric or with an
explicit in-range row list — succeeds, every region of the resulting set
still lies inside its chromosome (in particular no shifted region has
`start < 0` or `end` beyond the chromosome length: candidates that would
violate this are skipped, not applied), and the accepted count plus the
number of skipped candidates equals the number of sampled candidates. -/
theorem shift_inbounds (s : BState) (rate mean stdev : ℚ)
    (hb : ∀ r ∈ s.bed, regionInBounds s.chromLens r = true)
    (hlens : ¬ s.chromLens.isEmpty) (h0 : 0 ≤ rate) (h1 : rate ≤ 1) :
    (∀ rows : List Nat, (∀ i ∈ rows, i < s.bed.length) →
      (shift s rate mean stdev (some rows)).err = none ∧
      (∀ r ∈ (shift s rate mean stdev (some rows)).state.bed,
        regionInBounds s.chromLens r = true) ∧
      ∃ skipped, (shift s rate mean stdev (some rows)).count + skipped = rows.length) ∧
    ((shift s rate mean stdev none).err = none ∧
      (∀ r ∈ (shift s rate mean stdev none).state.bed,
        regionInBounds s.chromLens r = true) ∧
      ∃ skipped, (shift s rate mean stdev none).count + skipped
        = numFromRate s.bed.length rate) := by
  have hcond : ¬(rate < 0 ∨ 1 < rate) := not_or.mpr ⟨not_lt.mpr h0, not_lt.mpr h1⟩
  constructor
  · intro rows hrows
    have hshift : shift s rate mean stdev (some rows) = shiftCore s rows := by
      simp only [shift, if_neg hcond, if_neg hlens]
    rw [hshift]
    exact shiftCore_spec s rows hb hrows
  · obtain ⟨xs, heq, hlen, hnd, hlt⟩ := randSample_some s.rng s.bed.length
      (numFromRate s.bed.length rate) (numFromRate_le _ _ h1)
    have hshift : shift s rate mean stdev none
        = shiftCore { s with rng := ⟨s.rng.ctr + numFromRate s.bed.length rate,
            s.rng.stream⟩ } xs := by
      simp only [shift, if_neg hcond, if_neg hlens, heq]
    rw [hshift]
    obtain ⟨he, hbnd, skipped, hc⟩ := shiftCore_spec
      { s with rng := ⟨s.rng.ctr + numFromRate s.bed.length rate, s.rng.stream⟩ } xs hb hlt
    exact ⟨he, hbnd, skipped, by rw [hc, hlen]⟩

/-- C5 (amended): for `rate ∈ [0,1]`, `drop` succeeds, removes exactly
`⌊n·rate⌋` distinct rows and returns that count; when the input rows are
pairwise distinct, no region identical (in all four fields) to a removed
row remains in the resulting set. -/
theorem drop_spec (s : BState) (rate : ℚ) (h0 : 0 ≤ rate) (h1 : rate ≤ 1) :
    (drop s rate).err = none ∧
    (drop s rate).count = numFromRate s.bed.length rate ∧
    (drop s rate).state.bed.length = s.bed.length - (drop s rate).count ∧
    ∃ idxs : List Nat, idxs.Nodup ∧ (∀ i ∈ idxs, i < s.bed.length) ∧
      idxs.length = (drop s rate).count ∧
      (drop s rate).state.bed = removeIdxs s.bed idxs ∧
      (s.bed.Nodup → ∀ i ∈ idxs, ∀ h : i < s.bed.length,
        s.bed.get ⟨i, h⟩ ∉ (drop s rate).state.bed) := by
  have hcond : ¬(rate < 0 ∨ 1 < rate) := not_or.mpr ⟨not_lt.mpr h0, not_lt.mpr h1⟩
  obtain ⟨xs, heq, hlen, hnd, hlt⟩ := randSample_some s.rng s.bed.length
    (numFromRate s.bed.length rate) (numFromRate_le _ _ h1)
  have hmain : drop s rate = ⟨none, xs.length, { s with bed := removeIdxs s.bed xs, rng := ⟨s.rng.ctr + numFromRate s.bed.length rate, s.rng.stream⟩ }⟩ := by
    simp only [drop, if_neg hcond, heq]
  rw [hmain]
  refine ⟨rfl, hlen, ?_, xs, hnd, hlt, rfl, rfl, ?_⟩
  · exact length_removeIdxs s.bed xs hnd hlt
  · intro hbednd i hi h
    exact get_not_mem_removeIdxs hbednd hi h

/-- C7: for `rate ∈ [0,1]`, `cut` succeeds, returns `k = ⌊n·rate⌋`, grows
the row count by exactly `k`, and replaces each of the `k` sampled rows by
its two `_cut` halves: both tagged `'C'`, the first spanning from the
original start to the cut point, the second from the cut point to the
original end. -/
theorem cut_spec (s : BState) (rate : ℚ) (h0 : 0 ≤ rate) (h1 : rate ≤ 1) :
    (cut s rate).err = none ∧
    (cut s rate).count = numFromRate s.bed.length rate ∧
    (cut s rate).state.bed.length = s.bed.length + (cut s rate).count ∧
    ∃ sampled : List Nat, sampled.Nodup ∧ (∀ i ∈ sampled, i < s.bed.length) ∧
      sampled.length = (cut s rate).count ∧
      (cut s rate).state.bed = removeIdxs s.bed sampled
        ++ sampled.flatMap (fun i => cutPair (s.bed.getD i default)) ∧
      ∀ r : Region, cutPair r
        = [⟨r.chrom, r.start, cutMid r, 'C'⟩, ⟨r.chrom, cutMid r, r.stop, 'C'⟩] := by
  have hcond : ¬(rate < 0 ∨ 1 < rate) := not_or.mpr ⟨not_lt.mpr h0, not_lt.mpr h1⟩
  have hkn := numFromRate_le s.bed.length rate h1
  obtain ⟨xs, heq, hlen, hnd, hlt⟩ := randSample_some s.rng s.bed.length
    (numFromRate s.bed.length rate) hkn
  have hmain : cut s rate = ⟨none, xs.length, { s with bed := removeIdxs s.bed xs ++ xs.flatMap (fun i => cutPair (s.bed.getD i default)), rng := ⟨s.rng.ctr + numFromRate s.bed.length rate, s.rng.stream⟩ }⟩ := by
    simp only [cut, if_neg hcond, heq, cutLoop_ok s.bed xs hlt]
  rw [hmain]
  refine ⟨rfl, hlen, ?_, xs, hnd, hlt, rfl, rfl, fun r => rfl⟩
  show (removeIdxs s.bed xs ++ xs.flatMap (fun i => cutPair (s.bed.getD i default))).length
    = s.bed.length + xs.length
  rw [List.length_append, length_removeIdxs s.bed xs hnd hlt, length_flatMap_cutPair]
  rw [hlen]
  omega

/-- C6: for `rate ∈ [0,1]`, `merge` succeeds and returns the number of
sampled rows `⌊n·rate⌋` (whether or not the individual merges succeed);
every region added by a merge comes from a sampled row `i` whose successor
row `i+1` exists and lies on the same chromosome, and spans exactly from
row `i`'s start to row `i+1`'s end with tag `'M'`; rows are removed only
as part of such a successful same-chromosome pair — a failed sample leaves
its row untouched. -/
theorem merge_spec (s : BState) (rate : ℚ) (h0 : 0 ≤ rate) (h1 : rate ≤ 1) :
    (merge s rate).err = none ∧
    (merge s rate).count = numFromRate s.bed.length rate ∧
    ∃ sampled : List Nat, sampled.Nodup ∧ (∀ i ∈ sampled, i < s.bed.length) ∧
      sampled.length = (merge s rate).count ∧
      (merge s rate).state.bed = removeIdxs s.bed (mergeLoop s.bed sampled).2
        ++ (mergeLoop s.bed sampled).1 ∧
      (∀ a ∈ (mergeLoop s.bed sampled).1, ∃ i ∈ sampled,
        ∃ (hnext : i + 1 < s.bed.length) (hcur : i < s.bed.length),
          (s.bed.get ⟨i, hcur⟩).chrom = (s.bed.get ⟨i + 1, hnext⟩).chrom ∧
          a = ⟨(s.bed.get ⟨i, hcur⟩).chrom, (s.bed.get ⟨i, hcur⟩).start,
            (s.bed.get ⟨i + 1, hnext⟩).stop, 'M'⟩) ∧
      (∀ j ∈ (mergeLoop s.bed sampled).2, ∃ i ∈ sampled,
        ∃ (hnext : i + 1 < s.bed.length) (hcur : i < s.bed.length),
          (j = i ∨ j = i + 1) ∧
          (s.bed.get ⟨i, hcur⟩).chrom = (s.bed.get ⟨i + 1, hnext⟩).chrom) := by
  have hcond : ¬(rate < 0 ∨ 1 < rate) := not_or.mpr ⟨not_lt.mpr h0, not_lt.mpr h1⟩
  obtain ⟨xs, heq, hlen, hnd, hlt⟩ := randSample_some s.rng s.bed.length
    (numFromRate s.bed.length rate) (numFromRate_le _ _ h1)
  have hmain : merge s rate = ⟨none, xs.length, { s with bed := removeIdxs s.bed (mergeLoop s.bed xs).2 ++ (mergeLoop s.bed xs).1, rng := ⟨s.rng.ctr + numFromRate s.bed.length rate, s.rng.stream⟩ }⟩ := by
    simp only [merge, if_neg hcond, heq]
  rw [hmain]
  obtain ⟨hadd, hdrop⟩ := mergeLoop_spec s.bed xs
  refine ⟨rfl, hlen, xs, hnd, hlt, rfl, rfl, ?_, ?_⟩
  · intro a ha
    obtain ⟨i, hi, hnext, hcur, hchr, haeq⟩ := hadd a ha
    exact ⟨i, hi, hnext, hcur, hchr, haeq⟩
  · intro j hj
    obtain ⟨i, hi, hnext, hcur, hij, hchr⟩ := hdrop j hj
    exact ⟨i, hi, hnext, hcur, hij, hchr⟩

/-- C8: with a nonempty length map whose lengths are all positive and any
`rate ≥ 0` (add accepts rates above 1), `add` succeeds, returns
`k = ⌊n·rate⌋`, appends exactly `k` new regions, and every new region sits
on a chromosome of the map with `1 ≤ start ≤ chromLen`,
`end ≤ chromLen`, and tag `'A'` (its end may fall at or below its start
when the drawn length is non-positive). -/
theorem add_spec (s : BState) (rate mean stdev : ℚ) (h0 : 0 ≤ rate)
    (hne : ¬ s.chromLens.isEmpty) (hpos : ∀ p ∈ s.chromLens, (1 : Int) ≤ p.2) :
    (add s rate mean stdev).err = none ∧
    (add s rate mean stdev).count = numFromRate s.bed.length rate ∧
    ∃ newRegions : List Region,
      (add s rate mean stdev).state.bed = s.bed ++ newRegions ∧
      newRegions.length = (add s rate mean stdev).count ∧
      ∀ reg ∈ newRegions, ∃ p ∈ s.chromLens, reg.chrom = p.1 ∧ 1 ≤ reg.start ∧
        reg.start ≤ p.2 ∧ reg.stop ≤ p.2 ∧ reg.tag = 'A' := by
  have hne' : s.chromLens ≠ [] := by simpa [List.isEmpty_iff] using hne
  obtain ⟨hplen, hpmem⟩ := pickChromsLoop_spec s.rng.stream s.chromLens hne'
    (numFromRate s.bed.length rate) s.rng.ctr
  obtain ⟨rs, c, haeq, halen, hamem⟩ := addLoop_spec s.rng.stream
    (pickChromsLoop s.rng.stream s.chromLens s.rng.ctr (numFromRate s.bed.length rate)).1
    (pickChromsLoop s.rng.stream s.chromLens s.rng.ctr (numFromRate s.bed.length rate)).2
    (fun p hp => hpos p (hpmem p hp))
  have hmain : add s rate mean stdev = ⟨none, numFromRate s.bed.length rate, { s with bed := s.bed ++ rs, rng := ⟨c, s.rng.stream⟩ }⟩ := by
    unfold add
    rw [if_neg (not_lt.mpr h0), if_neg hne]
    dsimp only
    rw [haeq]
  rw [hmain]
  refine ⟨rfl, rfl, rs, rfl, by rw [halen, hplen], ?_⟩
  intro reg hreg
  obtain ⟨p, hp, hrest⟩ := hamem reg hreg
  exact ⟨p, hpmem p hp, hrest⟩

/-- C3 (amended): a rate of exactly 0 makes every stage return 0, leave
the interval set (and the whole object state, including the random source)
unchanged; `cut`, `merge`, `drop` and `drop_from_file` additionally never
fail at rate 0, while `shift`, `add` and `add_from_file` still require a
nonempty chromosome length map and `shift_from_file` additionally a
nonempty overlap with the external set — with an empty map (or no overlap)
those stages fail even at rate 0. -/
theorem rate_zero_noop (s : BState) (ext : List Region) (mean stdev : ℚ) :
    cut s 0 = ⟨none, 0, s⟩ ∧
    merge s 0 = ⟨none, 0, s⟩ ∧
    drop s 0 = ⟨none, 0, s⟩ ∧
    dropFromFile s ext 0 = ⟨none, 0, s⟩ ∧
    (¬ s.chromLens.isEmpty → shift s 0 mean stdev none = ⟨none, 0, s⟩) ∧
    (¬ s.chromLens.isEmpty → add s 0 mean stdev = ⟨none, 0, s⟩) ∧
    (¬ s.chromLens.isEmpty → addFromFile s ext 0 = ⟨none, 0, s⟩) ∧
    (¬ s.chromLens.isEmpty → (findOverlap s.originalBed ext).length ≠ 0 →
      shiftFromFile s ext 0 mean stdev = ⟨none, 0, s⟩) :=
  ⟨cut_zero s, merge_zero s, drop_zero s, dropFromFile_zero s ext,
    fun h => shift_zero s mean stdev h, fun h => add_zero s mean stdev h,
    fun h => addFromFile_zero s ext h,
    fun h hov => shiftFromFile_zero s ext mean stdev h hov⟩

/-- C4 (amended): for `shift`, `shift_from_file`, `cut`, `merge` and
`drop`, any rate outside `[0,1]` fails with `InvalidRate` and the state is
returned untouched; `drop_from_file` rejects only negative rates (a rate
above 1 is accepted there and the request is clamped instead). -/
theorem invalid_rate_rejected (s : BState) (ext : List Region) (rate mean stdev : ℚ)
    (o : Option (List Nat)) (hbad : rate < 0 ∨ 1 < rate) :
    shift s rate mean stdev o = ⟨some .invalidRate, 0, s⟩ ∧
    shiftFromFile s ext rate mean stdev = ⟨some .invalidRate, 0, s⟩ ∧
    cut s rate = ⟨some .invalidRate, 0, s⟩ ∧
    merge s rate = ⟨some .invalidRate, 0, s⟩ ∧
    drop s rate = ⟨some .invalidRate, 0, s⟩ ∧
    (rate < 0 → dropFromFile s ext rate = ⟨some .invalidRate, 0, s⟩) := by
  refine ⟨?_, ?_, ?_, ?_, ?_, ?_⟩
  · rw [shift.eq_def, if_pos hbad]
  · rw [shiftFromFile.eq_def, if_pos hbad]
  · rw [cut.eq_def, if_pos hbad]
  · rw [merge.eq_def, if_pos hbad]
  · rw [drop.eq_def, if_pos hbad]
  · intro hneg; rw [dropFromFile.eq_def, if_pos hneg]

/-- C9: whenever any operator terminates with an error — `InvalidRate`,
`MissingChromosomeLengths`, `InsufficientOverlap`, `NoOverlapFound`, or an
uncaught `KeyError`/`ValueError` — the working interval set at termination
equals the working set at entry: every failure is raised before
`self.bed` is reassigned. -/
theorem errors_leave_bed_unchanged (s : BState) (ext : List Region)
    (rate mean stdev : ℚ) (o : Option (List Nat)) :
    ((shift s rate mean stdev o).err.isSome →
      (shift s rate mean stdev o).state.bed = s.bed) ∧
    ((shiftFromFile s ext rate mean stdev).err.isSome →
      (shiftFromFile s ext rate mean stdev).state.bed = s.bed) ∧
    ((add s rate mean stdev).err.isSome → (add s rate mean stdev).state.bed = s.bed) ∧
    ((addFromFile s ext rate).err.isSome → (addFromFile s ext rate).state.bed = s.bed) ∧
    ((cut s rate).err.isSome → (cut s rate).state.bed = s.bed) ∧
    ((merge s rate).err.isSome → (merge s rate).state.bed = s.bed) ∧
    ((drop s rate).err.isSome → (drop s rate).state.bed = s.bed) ∧
    ((dropFromFile s ext rate).err.isSome →
      (dropFromFile s ext rate).state.bed = s.bed) :=
  ⟨shift_err s rate mean stdev o, shiftFromFile_err s ext rate mean stdev,
    add_err s rate mean stdev, addFromFile_err s ext rate, cut_err s rate,
    merge_err s rate, drop_err s rate, dropFromFile_err s ext rate⟩

/-- C10: `drop_from_file` at rate exactly 0 returns 0 with the state
untouched, before the external file is read or any overlap is computed —
the result does not depend on the external set at all, so no
`NoOverlapFound` can be raised; any positive rate instead computes the
overlap and fails with `NoOverlapFound` whenever it is empty. -/
theorem dropFromFile_rate0_spec (s : BState) (ext : List Region) :
    dropFromFile s ext 0 = ⟨none, 0, s⟩ ∧
    ∀ rate : ℚ, 0 < rate → (findOverlap s.originalBed ext).length = 0 →
      dropFromFile s ext rate = ⟨some .noOverlapFound, 0, s⟩ := by
  refine ⟨dropFromFile_zero s ext, ?_⟩
  intro rate hr hov
  rw [dropFromFile.eq_def, if_neg (not_lt.mpr hr.le), if_neg hr.ne']
  dsimp only
  rw [if_pos hov]

/-! ### Concrete evaluations: counterexamples and witnesses -/

section

attribute [local semireducible] Rat.mul Rat.add Rat.sub Rat.inv Rat.ofScientific

/-- C2: evaluation of `shift_from_file` at a concrete input exhibiting the
row-selection defect: the overlap between the original set and the
external set is exactly the second row `chr1:100-110` and the requested
count 1 is within the available overlap, yet the call shifts row 0
(`chr1:0-10`), which does not overlap the external set, and returns the
only overlapping row unshifted — the sampled positions into the
intersection are passed directly as row labels of the working frame. -/
theorem shiftFromFile_bug :
    findOverlap stTwo.originalBed extB = [regB] ∧
    (∀ c ∈ extB, overlaps regA c = false) ∧
    (shiftFromFile stTwo extB (1/2) 0 0).err = none ∧
    (shiftFromFile stTwo extB (1/2) 0 0).count = 1 ∧
    (shiftFromFile stTwo extB (1/2) 0 0).state.bed
      = [regB, ⟨"chr1", 1, 11, 'S'⟩] := by decide

/-- C1 counterexample: a working set containing a region with negative
start (its chromosome in the length map) is returned by a successful
`shift` call still containing that region — the claim's set-wide bound
fails without an in-bounds assumption on the input set. -/
theorem shift_inbounds_counterexample :
    (shift stNeg 1 0 0 none).err = none ∧
    (shift stNeg 1 0 0 none).state.bed = [⟨"chr1", -5, 3, '-'⟩] ∧
    ((⟨"chr1", -5, 3, '-'⟩ : Region).start < 0) ∧
    lookupChrom stNeg.chromLens "chr1" = some 1000 := by decide

theorem shift_inbounds_witness :
    (shift stOne 1 0 0 none).err = none ∧
    ∀ r ∈ (shift stOne 1 0 0 none).state.bed,
      regionInBounds stOne.chromLens r = true :=
  ⟨(shift_inbounds stOne 1 0 0 (by decide) (by decide) (by norm_num)
      (by norm_num)).2.1,
   (shift_inbounds stOne 1 0 0 (by decide) (by decide) (by norm_num)
      (by norm_num)).2.2.1⟩

/-- C3 counterexample: at rate exactly 0 with an empty chromosome length
map, `shift` fails with the missing-lengths error instead of being a
no-op. -/
theorem rate_zero_noop_counterexample :
    stNoLens.chromLens = [] ∧
    (shift stNoLens 0 0 0 none).err = some .missingChromLens := by decide

theorem rate_zero_noop_witness :
    shift stOne 0 0 0 none = ⟨none, 0, stOne⟩ ∧ cut stOne 0 = ⟨none, 0, stOne⟩ :=
  ⟨(rate_zero_noop stOne [] 0 0).2.2.2.2.1 (by decide), (rate_zero_noop stOne [] 0 0).1⟩

/-- C4 counterexample: `drop_from_file` with rate 2 (outside `[0,1]`)
does not fail with `InvalidRate` — it succeeds, clamping the request. -/
theorem invalid_rate_rejected_counterexample :
    ((1 : ℚ) < 2) ∧ (dropFromFile stAB extA 2).err = none ∧
    (dropFromFile stAB extA 2).count = 1 := by decide

theorem invalid_rate_rejected_witness :
    drop stOne 2 = ⟨some .invalidRate, 0, stOne⟩ :=
  (invalid_rate_rejected stOne [] 2 0 0 none (by norm_num)).2.2.2.2.1

/-- C5 counterexample: with two identical rows and rate 1/2, `drop`
removes one of them and the resulting set still contains a region
identical in all four fields to the removed row. -/
theorem drop_spec_counterexample :
    stDup.bed = [regA, regA] ∧ (drop stDup (1/2)).count = 1 ∧
    (drop stDup (1/2)).state.bed = [regA] ∧
    regA ∈ (drop stDup (1/2)).state.bed := by decide

theorem drop_spec_witness :
    (drop stTwo (1/2)).err = none ∧
    (drop stTwo (1/2)).count = numFromRate stTwo.bed.length (1/2) :=
  ⟨(drop_spec stTwo (1/2) (by norm_num) (by norm_num)).1,
   (drop_spec stTwo (1/2) (by norm_num) (by norm_num)).2.1⟩

theorem merge_spec_witness :
    (merge stTwo (1/2)).err = none ∧
    (merge stTwo (1/2)).count = numFromRate stTwo.bed.length (1/2) :=
  ⟨(merge_spec stTwo (1/2) (by norm_num) (by norm_num)).1,
   (merge_spec stTwo (1/2) (by norm_num) (by norm_num)).2.1⟩

theorem cut_spec_witness :
    (cut stTwo (1/2)).err = none ∧
    (cut stTwo (1/2)).state.bed.length = stTwo.bed.length + (cut stTwo (1/2)).count :=
  ⟨(cut_spec stTwo (1/2) (by norm_num) (by norm_num)).1,
   (cut_spec stTwo (1/2) (by norm_num) (by norm_num)).2.2.1⟩

theorem add_spec_witness :
    (add stOne 2 0 0).err = none ∧
    (add stOne 2 0 0).count = numFromRate stOne.bed.length 2 :=
  ⟨(add_spec stOne 2 0 0 (by norm_num) (by decide) (by decide)).1,
   (add_spec stOne 2 0 0 (by norm_num) (by decide) (by decide)).2.1⟩

theorem errors_leave_bed_unchanged_witness :
    (shift stOne 2 0 0 none).err.isSome ∧
    (shift stOne 2 0 0 none).state.bed = stOne.bed :=
  ⟨by decide, (errors_leave_bed_unchanged stOne [] 2 0 0 none).1 (by decide)⟩

theorem dropFromFile_rate0_witness :
    dropFromFile stOne extNone (1/2) = ⟨some .noOverlapFound, 0, stOne⟩ :=
  (dropFromFile_rate0_spec stOne extNone).2 (1/2) (by norm_num) (by decide)

end

end Bedshift
